import Mathlib

/-!
Shallow embedding of `dataset/dataset.py` (class `Im2LatexDataset`): the
dimension-bucketing index built in `__init__`, the batch planner in `__iter__`,
`_get_size`, `__next__` / `prepare_data`, and `update`.

Modelling conventions:
* An image file on disk is a record carrying the data the code observes about
  it: its path, the integer encoded in its filename stem
  (`int(os.path.basename(img).split('.')[0])`), the `(width, height)` reported
  by `imagesize.get`, whether `cv2.imread` succeeds on it, and the spatial
  shape of the (opaque) transform's output tensor for it.
* Python machine behaviour is modelled explicitly: list indexing with an `Int`
  index wraps for negative indices and fails (`IndexError`, i.e. `none`) when
  out of range; dimensions are `Int` because `imagesize.get` can report
  non-positive values (e.g. `(-1, -1)` for unrecognised files).
* Randomness (`torch.randperm`, `np.random.permutation`) is passed in
  explicitly: a per-bucket permutation source `bp : Nat -> List Nat` and a
  global permutation `gp : List Nat`, applied only when `shuffle` is true.
* The tokenizer is the opaque collaborator
  `tokenize : List String -> List (List Nat) x List (List Nat)` returning the
  `input_ids` and `attention_mask` rows for a list of equations.
-/

namespace Im2Latex

/-- Image file as the code observes it: path, filename-stem integer,
dimensions reported by `imagesize.get`, whether `cv2.imread` decodes it, and
the spatial shape `(tH, tW)` of the transform output for this image. -/
structure ImageFile where
  path : String
  stem : Int
  width : Int
  height : Int
  decodable : Bool
  tH : Nat
  tW : Nat
deriving DecidableEq

/-- One bucketed sample: the pair `(eqs[index], im)` appended in `__init__`. -/
abbrev Sample := String × ImageFile

/-- Dimension key `(width, height)` of a bucket. -/
abbrev Key := Int × Int

/-- Bucket mapping `self.data`: insertion-ordered key/bucket association list,
modelling the Python `dict` (which preserves insertion order). -/
abbrev DataMap := List (Key × List Sample)

/-- Python list indexing `xs[i]`: non-negative indices are looked up directly,
negative indices wrap from the end, and anything else raises `IndexError`
(modelled by `none`). -/
def pyGet {α : Type} (xs : List α) (i : Int) : Option α :=
  if 0 ≤ i then xs.get? i.toNat
  else if 0 ≤ (xs.length : Int) + i then xs.get? ((xs.length : Int) + i).toNat
  else none

/-- Errors the index build can raise.  The only failure in
`__init__`'s scan loop is the unguarded lookup `eqs[self.indices[i]]`, a
Python `IndexError`. -/
inductive BuildError where
  | indexError (i : Int)
deriving DecidableEq

/-- Append a sample to the bucket keyed `k`, creating the bucket at the end of
the map if absent; models `self.data[(width, height)].append(...)` on a
`defaultdict` (insertion order preserved). -/
def bucketInsert (m : DataMap) (k : Key) (s : Sample) : DataMap :=
  match m with
  | [] => [(k, [s])]
  | (k', b) :: rest =>
      if k' = k then (k', b ++ [s]) :: rest else (k', b) :: bucketInsert rest k s

/-- Scan loop of `__init__` (lines 95-98): for each image, if its dimensions
fit the cap, look the target up by the filename-stem integer and bucket the
pair; an out-of-range lookup aborts the build with an `IndexError`. -/
def buildIndexAux (eqs : List String) (maxd : Int × Int) :
    DataMap → List ImageFile → Except BuildError DataMap
  | acc, [] => Except.ok acc
  | acc, im :: rest =>
      if im.width ≤ maxd.1 ∧ im.height ≤ maxd.2 then
        match pyGet eqs im.stem with
        | none => Except.error (BuildError.indexError im.stem)
        | some e => buildIndexAux eqs maxd (bucketInsert acc (im.width, im.height) (e, im)) rest
      else buildIndexAux eqs maxd acc rest

/-- The dimension index build of `__init__`, starting from an empty map. -/
def buildIndex (eqs : List String) (images : List ImageFile) (maxd : Int × Int) :
    Except BuildError DataMap :=
  buildIndexAux eqs maxd [] images

/-- Fuel-indexed chunking; `fuel` is instantiated with the list length. -/
def chunkAux {α : Type} (bs : Nat) : Nat → List α → List (List α)
  | 0, _ => []
  | _, [] => []
  | fuel + 1, x :: xs => (x :: xs).take bs :: chunkAux bs fuel ((x :: xs).drop bs)

/-- Slices `xs` into contiguous chunks of size `bs`, the last one possibly
shorter: models `for i in range(0, len(info), self.batchsize)` with the slice
`p[i:i+self.batchsize]`. -/
def chunkList {α : Type} (bs : Nat) (xs : List α) : List (List α) :=
  chunkAux bs xs.length xs

/-- Numpy-style fancy indexing `info[idxs]`: gather the elements of `xs` at the
given indices (out-of-range indices contribute nothing; the permutations the
code uses are always in range). -/
def applyPerm {α : Type} (p : List Nat) (xs : List α) : List α :=
  p.filterMap xs.get?

/-- The permutation `p` of `__iter__` line 115:
`torch.randperm(len(info)) if self.shuffle else torch.arange(len(info))`. -/
def effPerm (shuffle : Bool) (bp : Nat → List Nat) (bi : Nat) (n : Nat) : List Nat :=
  if shuffle then bp bi else List.range n

/-- Per-bucket batch construction of `__iter__` lines 116-122: chunk the
permuted index range, gather each chunk from the bucket, and keep a batch iff
it is full or `keep_smaller_batches` is set. -/
def planBucket (bs : Nat) (keep : Bool) (p : List Nat) (bucket : List Sample) :
    List (List Sample) :=
  ((chunkList bs p).map (fun idxs => applyPerm idxs bucket)).filter
    (fun b => decide (bs ≤ b.length) || keep)

/-- The bucket loop of `__iter__` lines 113-122, carrying the running bucket
index `bi` that addresses the per-bucket permutation source. -/
def prePlanAux (bs : Nat) (shuffle keep : Bool) (bp : Nat → List Nat) :
    Nat → DataMap → List (List Sample)
  | _, [] => []
  | bi, (_, bucket) :: rest =>
      planBucket bs keep (effPerm shuffle bp bi bucket.length) bucket
        ++ prePlanAux bs shuffle keep bp (bi + 1) rest

/-- All per-bucket batches, concatenated in bucket order (`self.pairs` before
the optional global shuffle). -/
def prePlan (data : DataMap) (bs : Nat) (shuffle keep : Bool)
    (bp : Nat → List Nat) : List (List Sample) :=
  prePlanAux bs shuffle keep bp 0 data

/-- The full plan of `__iter__` lines 113-126: per-bucket batches, then one
global permutation of the batch list when `shuffle` is set
(`np.random.permutation`). -/
def buildPlan (data : DataMap) (bs : Nat) (shuffle keep : Bool)
    (bp : Nat → List Nat) (gp : List Nat) : List (List Sample) :=
  if shuffle then applyPerm gp (prePlan data bs shuffle keep bp)
  else prePlan data bs shuffle keep bp

/-- The `Im2LatexDataset` aggregate: the bucket map, the configuration
attributes, and the iteration state `pairs` / `size` / `i`. -/
structure Dataset where
  data : DataMap
  batchsize : Nat
  shuffle : Bool
  keep_smaller_batches : Bool
  pad : Bool
  test : Bool
  max_dimensions : Int × Int
  pairs : List (List Sample)
  size : Nat
  i : Nat
deriving DecidableEq

/-- Floor-sum of `_get_size` (lines 169-173):
`sum over buckets of len(bucket) // batchsize`. -/
def floorSum (data : DataMap) (bs : Nat) : Nat :=
  (data.map (fun kv => kv.2.length / bs)).sum

/-- `_get_size`: recompute `self.size` as the floor-sum. -/
def get_size (d : Dataset) : Dataset :=
  { d with size := floorSum d.data d.batchsize }

/-- `__iter__` (start of an iteration pass): reset the cursor, rebuild
`self.pairs` from the current configuration and, crucially, set `self.size`
to the length of the new plan (line 127), overwriting any earlier
`_get_size` value. -/
def datasetIter (d : Dataset) (bp : Nat → List Nat) (gp : List Nat) : Dataset :=
  { d with
    i := 0,
    pairs := buildPlan d.data d.batchsize d.shuffle d.keep_smaller_batches bp gp,
    size := (buildPlan d.data d.batchsize d.shuffle d.keep_smaller_batches bp gp).length }

/-- `__len__`: returns `self.size`. -/
def datasetLen (d : Dataset) : Nat :=
  d.size

/-- `__init__` (with images and equations given): build the index, run
`_get_size`, then start iteration (`iter(self)`). -/
def initDataset (eqs : List String) (images : List ImageFile) (shuffle : Bool)
    (bs : Nat) (maxd : Int × Int) (pad keep test : Bool)
    (bp : Nat → List Nat) (gp : List Nat) : Except BuildError Dataset :=
  match buildIndex eqs images maxd with
  | Except.error e => Except.error e
  | Except.ok data =>
      Except.ok (datasetIter
        (get_size
          { data := data, batchsize := bs, shuffle := shuffle,
            keep_smaller_batches := keep, pad := pad, test := test,
            max_dimensions := maxd, pairs := [], size := 0, i := 0 })
        bp gp)

/-- Keyword arguments recognised by `update` (line 195 and 198). -/
structure UpdateKwargs where
  batchsize : Option Nat := none
  shuffle : Option Bool := none
  pad : Option Bool := none
  keep_smaller_batches : Option Bool := none
  test : Option Bool := none
  max_dimensions : Option (Int × Int) := none

/-- The bucket-retention test of `update` line 202:
`0 < k[0] <= max_dimensions[0] and 0 < k[1] <= max_dimensions[1]`. -/
def updateKeyKept (nd : Int × Int) (k : Key) : Bool :=
  decide (0 < k.1) && decide (k.1 ≤ nd.1) && decide (0 < k.2) && decide (k.2 ≤ nd.2)

/-- First half of `update` (lines 195-197): overwrite the five plain
attributes that appear among the kwargs. -/
def applyOptions (d : Dataset) (kw : UpdateKwargs) : Dataset :=
  { d with
    batchsize := kw.batchsize.getD d.batchsize,
    shuffle := kw.shuffle.getD d.shuffle,
    pad := kw.pad.getD d.pad,
    keep_smaller_batches := kw.keep_smaller_batches.getD d.keep_smaller_batches,
    test := kw.test.getD d.test }

/-- Second half of `update` (lines 198-204): when `max_dimensions` is among
the kwargs, store it and keep only the buckets passing `updateKeyKept`. -/
def applyMaxDims (d : Dataset) (mx : Option (Int × Int)) : Dataset :=
  match mx with
  | none => d
  | some nd =>
      { d with
        max_dimensions := nd,
        data := d.data.filter (fun kv => updateKeyKept nd kv.1) }

/-- `update` (lines 194-206): apply the option kwargs, filter buckets on a
dimension-cap change, then `_get_size` and `iter(self)`. -/
def update (d : Dataset) (kw : UpdateKwargs) (bp : Nat → List Nat)
    (gp : List Nat) : Dataset :=
  datasetIter (get_size (applyMaxDims (applyOptions d kw) kw.max_dimensions)) bp gp

/-- Bucket filter as the specification's sentence for the dimension-cap change
reads it: keep exactly the buckets whose key fits the new bounds.  Stated from
the spec's words, for comparison with the filter `update` actually applies. -/
def specFitFilter (data : DataMap) (nd : Int × Int) : DataMap :=
  data.filter (fun kv => decide (kv.1.1 ≤ nd.1) && decide (kv.1.2 ≤ nd.2))

/-- Special-token ids fixed by the class (lines 59-61). -/
def pad_token_id : Nat := 0

/-- Id of the beginning-of-sequence marker. -/
def bos_token_id : Nat := 1

/-- Id of the end-of-sequence marker. -/
def eos_token_id : Nat := 2

/-- Row transformation of line 158: `[p[0]] + x + [p[1]]` for every row. -/
def addMarkers (b e : Nat) (rows : List (List Nat)) : List (List Nat) :=
  rows.map (fun x => b :: (x ++ [e]))

/-- Length of the longest row of a field, the padding target of
`pad_sequence` for that field. -/
def maxRowLen (rows : List (List Nat)) : Nat :=
  (rows.map List.length).foldr max 0

/-- `torch.nn.utils.rnn.pad_sequence` with `batch_first=True`: pad every row
with `padding_value` up to the longest row of this field. -/
def pad_sequence (rows : List (List Nat)) (padding_value : Nat) : List (List Nat) :=
  rows.map (fun r => r ++ List.replicate (maxRowLen rows - r.length) padding_value)

/-- Per-field output of lines 157-158: the `input_ids` field gets
`[bos] + x + [eos]`, the `attention_mask` field gets `[1] + x + [1]`, and both
are padded independently with `pad_token_id`. -/
def tokProcess (input_ids attention_mask : List (List Nat)) :
    List (List Nat) × List (List Nat) :=
  (pad_sequence (addMarkers bos_token_id eos_token_id input_ids) pad_token_id,
   pad_sequence (addMarkers 1 1 attention_mask) pad_token_id)

/-- Tokenised output pair as returned by `prepare_data`. -/
abbrev TokOut := List (List Nat) × List (List Nat)

/-- Shape `(count, height, width)` of the stacked image tensor (the channel
dimension added by `unsqueeze(1)` is constant and omitted). -/
abbrev ImgStack := Nat × Int × Int

/-- Diagnostics `prepare_data` emits: the `print(path, 'not found!')` of line
151 and the `logging.critical` of line 162. -/
inductive LogEvent where
  | notFound (path : String)
  | imagesNotWorking (paths : List String)
deriving DecidableEq

/-- Spatial shapes of the transform outputs of the images that decode
(lines 148-154: undecodable images are skipped). -/
def transformedShapes (ims : List ImageFile) : List (Nat × Nat) :=
  (ims.filter (fun im => im.decodable)).map (fun im => (im.tH, im.tW))

/-- The decode-failure warnings, one per skipped image, in batch order. -/
def decodeWarnings (ims : List ImageFile) : List LogEvent :=
  (ims.filter (fun im => !im.decodable)).map (fun im => LogEvent.notFound im.path)

/-- `torch.cat(images)` of line 160 at shape level: fails (`RuntimeError`)
on an empty list or on inconsistent spatial shapes, else yields the common
shape with the image count. -/
def stackImagesE (shapes : List (Nat × Nat)) : Except String (Nat × Nat × Nat) :=
  match shapes with
  | [] => Except.error "expected a non-empty list of Tensors"
  | s :: rest =>
      if rest.all (fun t => decide (t = s)) then Except.ok (rest.length + 1, s.1, s.2)
      else Except.error "Sizes of tensors must match"

/-- `F.pad` of lines 164-166 at shape level: when `self.pad` is set, the
stacked tensor is padded on the bottom/right by `max_dimensions - shape`. -/
def padImages (pad : Bool) (maxd : Int × Int) (nhw : Nat × Nat × Nat) : ImgStack :=
  if pad then
    (nhw.1, (nhw.2.1 : Int) + (maxd.2 - (nhw.2.1 : Int)),
     (nhw.2.2 : Int) + (maxd.1 - (nhw.2.2 : Int)))
  else (nhw.1, (nhw.2.1 : Int), (nhw.2.2 : Int))

/-- `prepare_data` (lines 136-167): decode what decodes (warning per
failure), tokenise with boundary markers and padding, and stack the image
tensors; a failing stack is caught and turned into the absent pair
`(None, None)` plus a critical log naming every path of the batch.  The
function is total: no error escapes it. -/
def prepare_data (tokenize : List String → List (List Nat) × List (List Nat))
    (pad : Bool) (max_dimensions : Int × Int) (batch : List Sample) :
    Option (TokOut × ImgStack) × List LogEvent :=
  match stackImagesE (transformedShapes (batch.map Prod.snd)) with
  | Except.error _ =>
      (none,
       decodeWarnings (batch.map Prod.snd)
         ++ [LogEvent.imagesNotWorking ((batch.map Prod.snd).map (fun im => im.path))])
  | Except.ok nhw =>
      (some (tokProcess (tokenize (batch.map Prod.fst)).1 (tokenize (batch.map Prod.fst)).2,
             padImages pad max_dimensions nhw),
       decodeWarnings (batch.map Prod.snd))

/-- `__next__` (lines 130-134): `none` models `StopIteration` once the cursor
reaches `self.size`; otherwise load the batch at the cursor and advance. -/
def datasetNext (tokenize : List String → List (List Nat) × List (List Nat))
    (d : Dataset) : Option ((Option (TokOut × ImgStack) × List LogEvent) × Dataset) :=
  if d.size ≤ d.i then none
  else
    match d.pairs.get? d.i with
    | none => none
    | some b => some (prepare_data tokenize d.pad d.max_dimensions b, { d with i := d.i + 1 })

/-- Invariant of the bucket map: every key respects the dimension cap and
every sample of a bucket has exactly the bucket's dimensions. -/
def IndexInv (maxd : Int × Int) (data : DataMap) : Prop :=
  ∀ kv ∈ data, kv.1.1 ≤ maxd.1 ∧ kv.1.2 ≤ maxd.2 ∧
    ∀ s ∈ kv.2, (s.2.width, s.2.height) = kv.1

/-- Concrete image file used by several instantiations below. -/
def imA : ImageFile := ⟨"0.png", 0, 5, 5, true, 5, 5⟩

/-- Concrete sample with target text a. -/
def sA : Sample := ("a", imA)

/-- Concrete sample with target text b. -/
def sB : Sample := ("b", imA)

/-- Concrete sample with target text c. -/
def sC : Sample := ("c", imA)

/-- Dataset with one bucket of three samples, batch size 2 and
`keep_smaller_batches` on: its plan keeps the remainder batch. -/
def dC1 : Dataset :=
  ⟨[((5, 5), [sA, sB, sC])], 2, false, true, false, false, (10, 10), [], 0, 0⟩

/-- Dataset with one bucket of two samples and batch size 2. -/
def dC1w : Dataset :=
  ⟨[((5, 5), [sA, sB])], 2, false, false, false, false, (10, 10), [], 0, 0⟩

/-- Image file whose stem encodes the negative integer -1. -/
def imC2 : ImageFile := ⟨"-1.png", -1, 5, 5, true, 5, 5⟩

/-- Image file whose stem 5 is past the end of a one-line targets file. -/
def imC2w : ImageFile := ⟨"5.png", 5, 5, 5, true, 4, 4⟩

/-- Bucket map with a single bucket of three samples. -/
def dataC3 : DataMap := [((5, 5), [sA, sB, sC])]

/-- Image file for the index-build instantiation. -/
def imC4 : ImageFile := ⟨"0.png", 0, 5, 5, true, 5, 5⟩

/-- The dataset `initDataset` produces from one 5x5 image and one target. -/
def dC4w : Dataset :=
  ⟨[((5, 5), [("a", imC4)])], 1, false, false, false, false, (10, 10),
    [[("a", imC4)]], 1, 0⟩

/-- Image file that `imagesize` reports as 0 pixels wide. -/
def imC5 : ImageFile := ⟨"z.png", 0, 0, 5, true, 5, 5⟩

/-- Dataset holding one bucket keyed `(0, 5)`: zero width, in-bounds height. -/
def dC5 : Dataset :=
  ⟨[((0, 5), [("a", imC5)])], 1, false, false, false, false, (10, 10), [], 0, 0⟩

/-- Reconfiguration kwargs carrying only `max_dimensions = (10, 10)`. -/
def kwC5 : UpdateKwargs := { max_dimensions := some (10, 10) }

/-- Image file of width 0 for the build/update filter contrast. -/
def imC10 : ImageFile := ⟨"0.png", 0, 0, 5, true, 5, 5⟩

/-- Dataset holding the zero-width bucket the build filter admits. -/
def dC10 : Dataset :=
  ⟨[((0, 5), [("a", imC10)])], 1, false, false, false, false, (10, 10), [], 0, 0⟩

/-- Kwargs repeating the very bounds the zero-width bucket already fits. -/
def kwC10 : UpdateKwargs := { max_dimensions := some (10, 10) }

/-- Decodable image whose transform output is 4x4. -/
def imC6a : ImageFile := ⟨"g1.png", 0, 5, 5, true, 4, 4⟩

/-- Decodable image whose transform output is 9x9, clashing with 4x4. -/
def imC6b : ImageFile := ⟨"g2.png", 1, 6, 6, true, 9, 9⟩

/-- Toy tokenizer: every equation becomes the id row `[7]`, mask row `[1]`. -/
def tokC6 : List String → List (List Nat) × List (List Nat) :=
  fun eqs => (eqs.map (fun _ => [7]), eqs.map (fun _ => [1]))

/-- Image file `cv2.imread` fails to decode. -/
def imC7bad : ImageFile := ⟨"x.png", 0, 5, 5, false, 4, 4⟩

/-- Decodable companion image in the same batch. -/
def imC7g1 : ImageFile := ⟨"y.png", 1, 5, 5, true, 4, 4⟩

/-- Decodable image of the following batch. -/
def imC7g2 : ImageFile := ⟨"w.png", 2, 5, 5, true, 4, 4⟩

/-- Batch containing one undecodable and one decodable image. -/
def bC7 : List Sample := [("a", imC7bad), ("b", imC7g1)]

/-- Dataset mid-iteration whose first batch contains an undecodable image. -/
def dC7 : Dataset :=
  ⟨[], 2, false, true, false, false, (10, 10), [bC7, [("c", imC7g2)]], 2, 0⟩

/-- Toy tokenizer for the decode-failure instantiation. -/
def tokC7 : List String → List (List Nat) × List (List Nat) :=
  fun eqs => (eqs.map (fun _ => [7]), eqs.map (fun _ => [1]))

/-- Dataset with shuffling off, for the determinism instantiation. -/
def dC8 : Dataset :=
  ⟨[((5, 5), [sA, sB])], 1, false, false, false, false, (10, 10), [], 0, 0⟩

theorem mem_applyPerm {α : Type} {p : List Nat} {xs : List α} {a : α}
    (h : a ∈ applyPerm p xs) : a ∈ xs := by
  unfold applyPerm at h
  obtain ⟨i, _, hget⟩ := List.mem_filterMap.mp h
  exact List.get?_mem hget

theorem length_applyPerm {α : Type} {p : List Nat} {xs : List α}
    (h : ∀ i ∈ p, i < xs.length) : (applyPerm p xs).length = p.length := by
  induction p with
  | nil => rfl
  | cons i p ih =>
      have hi : i < xs.length := h i (List.mem_cons_self i p)
      have hrest : ∀ j ∈ p, j < xs.length := fun j hj => h j (List.mem_cons_of_mem i hj)
      unfold applyPerm at ih ⊢
      rw [List.filterMap_cons, List.get?_eq_get hi]
      simp [ih hrest]

theorem chunkAux_nil {α : Type} (bs fuel : Nat) : chunkAux (α := α) bs fuel [] = [] := by
  cases fuel <;> rfl

theorem mem_of_mem_chunkAux {α : Type} {bs : Nat} :
    ∀ {fuel : Nat} {xs c : List α}, c ∈ chunkAux bs fuel xs → ∀ a ∈ c, a ∈ xs := by
  intro fuel
  induction fuel with
  | zero => intro xs c hc; simp [chunkAux] at hc
  | succ fuel ih =>
      intro xs c hc
      cases xs with
      | nil => simp [chunkAux] at hc
      | cons x xs =>
          rw [chunkAux] at hc
          rcases List.mem_cons.mp hc with h | h
          · subst h; exact fun a ha => List.take_subset _ _ ha
          · exact fun a ha => List.drop_subset _ _ (ih h a ha)

theorem length_le_of_mem_chunkAux {α : Type} {bs : Nat} :
    ∀ {fuel : Nat} {xs c : List α}, c ∈ chunkAux bs fuel xs → c.length ≤ bs := by
  intro fuel
  induction fuel with
  | zero => intro xs c hc; simp [chunkAux] at hc
  | succ fuel ih =>
      intro xs c hc
      cases xs with
      | nil => simp [chunkAux] at hc
      | cons x xs =>
          rw [chunkAux] at hc
          rcases List.mem_cons.mp hc with h | h
          · subst h; rw [List.length_take]; exact min_le_left _ _
          · exact ih h

theorem chunkAux_filter_full_length {α : Type} {bs : Nat} (hbs : 0 < bs) :
    ∀ (fuel : Nat) (xs : List α), xs.length ≤ fuel →
      ((chunkAux bs fuel xs).filter (fun c => decide (bs ≤ c.length))).length
        = xs.length / bs := by
  intro fuel
  induction fuel with
  | zero =>
      intro xs hxs
      have : xs = [] := List.length_eq_zero.mp (Nat.le_zero.mp hxs)
      subst this
      simp [chunkAux]
  | succ fuel ih =>
      intro xs hxs
      cases xs with
      | nil => simp [chunkAux]
      | cons x xs =>
          rw [chunkAux, List.filter_cons]
          by_cases hle : bs ≤ (x :: xs).length
          · have htake : ((x :: xs).take bs).length = bs := by
              rw [List.length_take]; exact Nat.min_eq_left hle
            have hdroplen : ((x :: xs).drop bs).length ≤ fuel := by
              rw [List.length_drop]
              omega
            rw [htake]
            simp only [decide_eq_true_eq, le_refl, if_pos, List.length_cons]
            rw [ih _ hdroplen, List.length_drop]
            show ((x :: xs).length - bs) / bs + 1 = (x :: xs).length / bs
            rw [Nat.div_eq_sub_div hbs hle]
          · push_neg at hle
            have htake : ((x :: xs).take bs).length = (x :: xs).length := by
              rw [List.length_take]; exact Nat.min_eq_right (Nat.le_of_lt hle)
            have hpred : ¬ (bs ≤ ((x :: xs).take bs).length) := by
              rw [htake]; omega
            have hdrop : (x :: xs).drop bs = [] :=
              List.drop_eq_nil_of_le (Nat.le_of_lt hle)
            rw [if_neg (by simpa using hpred), hdrop, chunkAux_nil]
            exact (Nat.div_eq_of_lt hle).symm

theorem planBucket_mem_length {bs : Nat} {p : List Nat} {bucket : List Sample}
    {b : List Sample} (hb : b ∈ planBucket bs false p bucket) : b.length = bs := by
  unfold planBucket at hb
  obtain ⟨hmem, hpred⟩ := List.mem_filter.mp hb
  obtain ⟨idxs, hidxs, rfl⟩ := List.mem_map.mp hmem
  have h1 : bs ≤ (applyPerm idxs bucket).length := by simpa using hpred
  have h2 : (applyPerm idxs bucket).length ≤ idxs.length :=
    List.length_filterMap_le _ _
  have h3 : idxs.length ≤ bs := length_le_of_mem_chunkAux hidxs
  omega

theorem planBucket_mem_subset {bs : Nat} {keep : Bool} {p : List Nat}
    {bucket : List Sample} {b : List Sample} (hb : b ∈ planBucket bs keep p bucket) :
    ∀ s ∈ b, s ∈ bucket := by
  unfold planBucket at hb
  obtain ⟨hmem, _⟩ := List.mem_filter.mp hb
  obtain ⟨idxs, _, rfl⟩ := List.mem_map.mp hmem
  exact fun s hs => mem_applyPerm hs

theorem planBucket_length {bs : Nat} (hbs : 0 < bs) {p : List Nat}
    {bucket : List Sample} (hperm : p.Perm (List.range bucket.length)) :
    (planBucket bs false p bucket).length = bucket.length / bs := by
  have hmemp : ∀ i ∈ p, i < bucket.length := fun i hi =>
    List.mem_range.mp (hperm.mem_iff.mp hi)
  unfold planBucket chunkList
  rw [List.filter_map, List.length_map]
  have hcongr : ∀ idxs ∈ chunkAux bs p.length p,
      ((fun b => decide (bs ≤ b.length) || false) ∘ fun idxs => applyPerm idxs bucket) idxs
        = (fun c => decide (bs ≤ c.length)) idxs := by
    intro idxs hidx
    have hlen : (applyPerm idxs bucket).length = idxs.length :=
      length_applyPerm (fun i hi => hmemp i (mem_of_mem_chunkAux hidx i hi))
    simp [hlen]
  rw [List.filter_congr hcongr, chunkAux_filter_full_length hbs p.length p le_rfl,
    hperm.length_eq, List.length_range]

theorem mem_prePlanAux {bs : Nat} {sh keep : Bool} {bp : Nat → List Nat} :
    ∀ {data : DataMap} {bi : Nat} {b : List Sample},
      b ∈ prePlanAux bs sh keep bp bi data →
      ∃ k bucket p, (k, bucket) ∈ data ∧ b ∈ planBucket bs keep p bucket := by
  intro data
  induction data with
  | nil => intro bi b hb; simp [prePlanAux] at hb
  | cons kv rest ih =>
      intro bi b hb
      obtain ⟨k, bucket⟩ := kv
      rw [prePlanAux] at hb
      rcases List.mem_append.mp hb with h | h
      · exact ⟨k, bucket, _, List.mem_cons_self _ _, h⟩
      · obtain ⟨k', bucket', p', hmem, hpb⟩ := ih h
        exact ⟨k', bucket', p', List.mem_cons_of_mem _ hmem, hpb⟩

theorem mem_buildPlan {data : DataMap} {bs : Nat} {sh keep : Bool}
    {bp : Nat → List Nat} {gp : List Nat} {b : List Sample}
    (hb : b ∈ buildPlan data bs sh keep bp gp) :
    ∃ k bucket p, (k, bucket) ∈ data ∧ b ∈ planBucket bs keep p bucket := by
  unfold buildPlan at hb
  cases sh with
  | false => exact mem_prePlanAux hb
  | true => exact mem_prePlanAux (mem_applyPerm hb)

theorem prePlanAux_length {bs : Nat} (hbs : 0 < bs) (sh : Bool) (bp : Nat → List Nat) :
    ∀ (data : DataMap) (bi : Nat),
      (∀ j k bucket, data.get? j = some (k, bucket) →
        (effPerm sh bp (bi + j) bucket.length).Perm (List.range bucket.length)) →
      (prePlanAux bs sh false bp bi data).length = floorSum data bs := by
  intro data
  induction data with
  | nil => intro bi _; simp [prePlanAux, floorSum]
  | cons kv rest ih =>
      intro bi h
      obtain ⟨k, bucket⟩ := kv
      rw [prePlanAux, List.length_append]
      have hperm : (effPerm sh bp bi bucket.length).Perm (List.range bucket.length) := by
        have := h 0 k bucket rfl
        simpa using this
      have h1 := planBucket_length hbs hperm
      have h2 := ih (bi + 1) (fun j k' b' hj => by
        have hx := h (j + 1) k' b' (by simpa using hj)
        have harith : bi + (j + 1) = bi + 1 + j := by omega
        rwa [harith] at hx)
      rw [h1, h2]
      simp [floorSum]

theorem prePlanAux_shuffle_false (bs : Nat) (keep : Bool)
    (bp1 bp2 : Nat → List Nat) :
    ∀ (data : DataMap) (bi1 bi2 : Nat),
      prePlanAux bs false keep bp1 bi1 data = prePlanAux bs false keep bp2 bi2 data := by
  intro data
  induction data with
  | nil => intro bi1 bi2; rfl
  | cons kv rest ih =>
      intro bi1 bi2
      obtain ⟨k, bucket⟩ := kv
      rw [prePlanAux, prePlanAux, ih (bi1 + 1) (bi2 + 1)]
      simp [effPerm]

theorem bucketInsert_IndexInv {maxd : Int × Int} {m : DataMap} {k0 : Key}
    {s0 : Sample} (hm : IndexInv maxd m) (hk1 : k0.1 ≤ maxd.1) (hk2 : k0.2 ≤ maxd.2)
    (hs : (s0.2.width, s0.2.height) = k0) :
    IndexInv maxd (bucketInsert m k0 s0) := by
  induction m with
  | nil =>
      intro kv hkv
      rw [bucketInsert] at hkv
      rcases List.mem_singleton.mp hkv with rfl
      refine ⟨hk1, hk2, ?_⟩
      intro s hsm
      rcases List.mem_singleton.mp hsm with rfl
      exact hs
  | cons kv' rest ih =>
      obtain ⟨k', b⟩ := kv'
      have hhead := hm (k', b) (List.mem_cons_self _ _)
      have hrest : IndexInv maxd rest := fun kv hkv => hm kv (List.mem_cons_of_mem _ hkv)
      intro kv hkv
      rw [bucketInsert] at hkv
      by_cases hk : k' = k0
      · rw [if_pos hk] at hkv
        rcases List.mem_cons.mp hkv with rfl | hkv
        · refine ⟨hhead.1, hhead.2.1, ?_⟩
          intro s hsm
          rcases List.mem_append.mp hsm with h | h
          · exact hhead.2.2 s h
          · rcases List.mem_singleton.mp h with rfl
            rw [hs, hk]
        · exact hrest kv hkv
      · rw [if_neg hk] at hkv
        rcases List.mem_cons.mp hkv with rfl | hkv
        · exact hhead
        · exact ih hrest kv hkv

theorem buildIndexAux_IndexInv {eqs : List String} {maxd : Int × Int} :
    ∀ {images : List ImageFile} {acc data : DataMap},
      IndexInv maxd acc → buildIndexAux eqs maxd acc images = Except.ok data →
      IndexInv maxd data := by
  intro images
  induction images with
  | nil =>
      intro acc data hacc h
      rw [buildIndexAux] at h
      cases h
      exact hacc
  | cons im rest ih =>
      intro acc data hacc h
      rw [buildIndexAux] at h
      by_cases hdim : im.width ≤ maxd.1 ∧ im.height ≤ maxd.2
      · rw [if_pos hdim] at h
        cases hg : pyGet eqs im.stem with
        | none => rw [hg] at h; cases h
        | some e =>
            rw [hg] at h
            have h' : buildIndexAux eqs maxd
                (bucketInsert acc (im.width, im.height) (e, im)) rest
                = Except.ok data := h
            exact ih
              (@bucketInsert_IndexInv maxd acc (im.width, im.height) (e, im)
                hacc hdim.1 hdim.2 rfl) h'
      · rw [if_neg hdim] at h
        exact ih hacc h

theorem IndexInv_filter {maxd : Int × Int} {m : DataMap} {q : Key × List Sample → Bool}
    (hm : IndexInv maxd m) : IndexInv maxd (m.filter q) :=
  fun kv hkv => hm kv (List.mem_of_mem_filter hkv)

theorem plan_batches_good {maxd : Int × Int} {data : DataMap}
    (hinv : IndexInv maxd data) {bs : Nat} {sh keep : Bool} {bp : Nat → List Nat}
    {gp : List Nat} :
    ∀ b ∈ buildPlan data bs sh keep bp gp,
      ∃ k bucket, (k, bucket) ∈ data ∧ k.1 ≤ maxd.1 ∧ k.2 ≤ maxd.2 ∧
        ∀ s ∈ b, s ∈ bucket ∧ (s.2.width, s.2.height) = k := by
  intro b hb
  obtain ⟨k, bucket, p, hmem, hpb⟩ := mem_buildPlan hb
  have hkv := hinv (k, bucket) hmem
  refine ⟨k, bucket, hmem, hkv.1, hkv.2.1, ?_⟩
  intro s hsb
  have hsbucket := planBucket_mem_subset hpb s hsb
  exact ⟨hsbucket, hkv.2.2 s hsbucket⟩

theorem pyGet_eq_none {α : Type} {xs : List α} {i : Int}
    (h : (xs.length : Int) ≤ i ∨ i < -(xs.length : Int)) : pyGet xs i = none := by
  unfold pyGet
  rcases h with h | h
  · rw [if_pos (le_trans (Int.ofNat_nonneg _) h)]
    exact List.get?_eq_none.mpr (by omega)
  · have h0 : ¬ (0 ≤ i) := by omega
    rw [if_neg h0, if_neg (by omega)]

theorem buildIndexAux_error {eqs : List String} {maxd : Int × Int} :
    ∀ {images : List ImageFile} (acc : DataMap),
      (∃ im ∈ images, (im.width ≤ maxd.1 ∧ im.height ≤ maxd.2) ∧
        ((eqs.length : Int) ≤ im.stem ∨ im.stem < -(eqs.length : Int))) →
      ∃ e, buildIndexAux eqs maxd acc images = Except.error e := by
  intro images
  induction images with
  | nil => intro acc h; simp at h
  | cons im rest ih =>
      intro acc h
      rw [buildIndexAux]
      by_cases hdim : im.width ≤ maxd.1 ∧ im.height ≤ maxd.2
      · rw [if_pos hdim]
        cases hg : pyGet eqs im.stem with
        | none => exact ⟨_, rfl⟩
        | some e =>
            obtain ⟨im', hm', hdim', hrange'⟩ := h
            rcases List.mem_cons.mp hm' with rfl | hm'
            · rw [pyGet_eq_none hrange'] at hg
              cases hg
            · exact ih _ ⟨im', hm', hdim', hrange'⟩
      · rw [if_neg hdim]
        obtain ⟨im', hm', hdim', hrange'⟩ := h
        rcases List.mem_cons.mp hm' with rfl | hm'
        · exact absurd hdim' hdim
        · exact ih _ ⟨im', hm', hdim', hrange'⟩

theorem stackImagesE_mismatch {shapes : List (Nat × Nat)} {a b : Nat × Nat}
    (ha : a ∈ shapes) (hb : b ∈ shapes) (hab : a ≠ b) :
    ∃ msg, stackImagesE shapes = Except.error msg := by
  cases shapes with
  | nil => cases ha
  | cons s rest =>
      by_cases hall : rest.all (fun t => decide (t = s)) = true
      · exfalso
        have hmem : ∀ t ∈ s :: rest, t = s := by
          intro t ht
          rcases List.mem_cons.mp ht with rfl | ht
          · rfl
          · simpa using List.all_eq_true.mp hall t ht
        exact hab ((hmem a ha).trans (hmem b hb).symm)
      · exact ⟨"Sizes of tensors must match", by rw [stackImagesE, if_neg hall]⟩

theorem stackImagesE_ok_count {shapes : List (Nat × Nat)} {nhw : Nat × Nat × Nat}
    (h : stackImagesE shapes = Except.ok nhw) : nhw.1 = shapes.length := by
  cases shapes with
  | nil => cases h
  | cons s rest =>
      rw [stackImagesE] at h
      by_cases hall : rest.all (fun t => decide (t = s)) = true
      · rw [if_pos hall] at h
        cases h
        simp
      · rw [if_neg hall] at h
        cases h

theorem length_filter_lt {α : Type} {p : α → Bool} {l : List α} {a : α}
    (ha : a ∈ l) (hpa : p a = false) : (l.filter p).length < l.length :=
  List.length_filter_lt_length_iff_exists.mpr ⟨a, ha, by simp [hpa]⟩

theorem mem_decodeWarnings {ims : List ImageFile} {im : ImageFile}
    (hmem : im ∈ ims) (hdec : im.decodable = false) :
    LogEvent.notFound im.path ∈ decodeWarnings ims := by
  unfold decodeWarnings
  exact List.mem_map.mpr ⟨im, List.mem_filter.mpr ⟨hmem, by simp [hdec]⟩, rfl⟩

theorem le_maxRowLen {rows : List (List Nat)} {r : List Nat} (hr : r ∈ rows) :
    r.length ≤ maxRowLen rows := by
  unfold maxRowLen
  induction rows with
  | nil => cases hr
  | cons hd tl ih =>
      rcases List.mem_cons.mp hr with rfl | hr
      · simp only [List.map_cons, List.foldr_cons]
        exact le_max_left _ _
      · simp only [List.map_cons, List.foldr_cons]
        exact le_trans (ih hr) (le_max_right _ _)

theorem pad_sequence_get {rows : List (List Nat)} {pv : Nat} {j : Nat} {r : List Nat}
    (hr : rows.get? j = some r) :
    (pad_sequence rows pv).get? j
      = some (r ++ List.replicate (maxRowLen rows - r.length) pv) := by
  unfold pad_sequence
  rw [List.get?_map, hr]
  rfl

theorem padImages_count (pad : Bool) (maxd : Int × Int) (nhw : Nat × Nat × Nat) :
    (padImages pad maxd nhw).1 = nhw.1 := by
  unfold padImages
  cases pad <;> rfl

theorem transformedShapes_length (ims : List ImageFile) :
    (transformedShapes ims).length = (ims.filter (fun im => im.decodable)).length := by
  unfold transformedShapes
  rw [List.length_map]

theorem datasetNext_isSome (tokenize : List String → List (List Nat) × List (List Nat))
    {d : Dataset} (h1 : d.i < d.size) (h2 : d.size ≤ d.pairs.length) :
    (datasetNext tokenize d).isSome = true := by
  unfold datasetNext
  rw [if_neg (by omega)]
  have hlt : d.i < d.pairs.length := by omega
  obtain ⟨bb, hbb⟩ : ∃ bb, d.pairs.get? d.i = some bb := ⟨_, List.get?_eq_get hlt⟩
  rw [hbb]
  rfl

/-- C1, counterexample.  One bucket of three samples, batch size 2,
`keep_smaller_batches = true`: after the `_get_size` / `iter` sequence the
reported length is 2 (the plan's true length, remainder batch included), not
the floor-sum 1 the claim predicts — `__iter__` line 127 overwrites
`self.size`. -/
theorem C1_counterexample :
    datasetLen (datasetIter (get_size dC1) (fun _ => []) [])
      ≠ floorSum dC1.data dC1.batchsize := by
  decide

/-- C1, amended.  After `start()` completes, `len(Dataset)` equals the number
of BatchDescriptors in the current Plan (`__iter__` sets `self.size` to the
plan's length, overwriting `_get_size`'s floor-sum); only when
`keep_smaller_batches` is false does this coincide with
`sum over buckets of floor(bucket_size / batch_size)` — with it true,
remainder batches are counted. -/
theorem C1_amended (d : Dataset) (bp : Nat → List Nat) (gp : List Nat)
    (hbs : 0 < d.batchsize)
    (hbp : ∀ j k bucket, d.data.get? j = some (k, bucket) →
        (bp j).Perm (List.range bucket.length))
    (hgp : gp.Perm (List.range
        (prePlan d.data d.batchsize d.shuffle d.keep_smaller_batches bp).length)) :
    datasetLen (datasetIter (get_size d) bp gp)
        = (buildPlan d.data d.batchsize d.shuffle d.keep_smaller_batches bp gp).length
    ∧ (d.keep_smaller_batches = false →
        datasetLen (datasetIter (get_size d) bp gp)
          = floorSum d.data d.batchsize) := by
  have heff : ∀ (sh : Bool), ∀ j k bucket, d.data.get? j = some (k, bucket) →
      (effPerm sh bp (0 + j) bucket.length).Perm (List.range bucket.length) := by
    intro sh j k bucket hj
    cases sh with
    | false => simp [effPerm]
    | true => simpa [effPerm] using hbp j k bucket hj
  constructor
  · rfl
  · intro hk
    show (buildPlan d.data d.batchsize d.shuffle d.keep_smaller_batches bp gp).length
        = floorSum d.data d.batchsize
    rw [hk] at hgp ⊢
    unfold buildPlan
    cases hsh : d.shuffle with
    | false =>
        show (prePlan d.data d.batchsize false false bp).length
            = floorSum d.data d.batchsize
        exact prePlanAux_length hbs false bp d.data 0 (heff false)
    | true =>
        rw [hsh] at hgp
        show (applyPerm gp (prePlan d.data d.batchsize true false bp)).length
            = floorSum d.data d.batchsize
        have hpre := prePlanAux_length hbs true bp d.data 0 (heff true)
        have hmem : ∀ i ∈ gp,
            i < (prePlan d.data d.batchsize true false bp).length := by
          intro i hi
          exact List.mem_range.mp (hgp.mem_iff.mp hi)
        rw [length_applyPerm hmem, hgp.length_eq, List.length_range]
        exact hpre

/-- C1, witness for the amended theorem at a two-sample bucket with batch
size 2 and valid permutations. -/
theorem C1_witness :
    datasetLen (datasetIter (get_size dC1w) (fun _ => [1, 0]) [0])
        = (buildPlan dC1w.data dC1w.batchsize dC1w.shuffle dC1w.keep_smaller_batches
            (fun _ => [1, 0]) [0]).length
    ∧ (dC1w.keep_smaller_batches = false →
        datasetLen (datasetIter (get_size dC1w) (fun _ => [1, 0]) [0])
          = floorSum dC1w.data dC1w.batchsize) := by
  refine C1_amended dC1w (fun _ => [1, 0]) [0] (by decide) ?_ (by decide)
  intro j k bucket hj
  have hmem : (k, bucket) ∈ dC1w.data := List.get?_mem hj
  have heq : (k, bucket) = ((5, 5), [sA, sB]) := by
    simpa [dC1w] using hmem
  have hb2 : bucket = [sA, sB] := congrArg Prod.snd heq
  rw [hb2]
  exact (by decide : ([1, 0] : List Nat).Perm (List.range 2))

/-- C2, counterexample.  The image stem -1 is out of range for the two-line
targets list, yet the build neither raises nor skips: Python's negative
indexing silently wraps and pairs the image with the last target line. -/
theorem C2_counterexample :
    buildIndex ["a", "b"] [imC2] (10, 10)
      = Except.ok [((5, 5), [("b", imC2)])] := by
  rfl

/-- C2, amended.  During index build, an image (with in-cap dimensions) whose
stem is out of range even under Python's negative-index semantics
(`stem >= len(targets)` or `stem < -len(targets)`) makes the build fail with
an uncaught `IndexError`; stems in `[-len(targets), -1]` instead silently
wrap to the end of the targets list.  No `MalformedDatasetError` exists. -/
theorem C2_amended (eqs : List String) (images : List ImageFile)
    (maxd : Int × Int)
    (h : ∃ im ∈ images, (im.width ≤ maxd.1 ∧ im.height ≤ maxd.2) ∧
        ((eqs.length : Int) ≤ im.stem ∨ im.stem < -(eqs.length : Int))) :
    ∃ e, buildIndex eqs images maxd = Except.error e :=
  buildIndexAux_error [] h

/-- C2, witness: one target line and an image stem 5 that is unrepresentable
even after wrapping, producing a build error. -/
theorem C2_witness :
    ∃ e, buildIndex ["a"] [imC2w] (10, 10) = Except.error e :=
  C2_amended ["a"] [imC2w] (10, 10) (by decide)

/-- C3, confirmed.  With `keep_smaller_batches = false`, every batch in the
produced plan (any bucket map, any positive batch size, any shuffle setting
and permutation source) has length exactly the batch size, and no batch
shorter than the batch size occurs in the plan. -/
theorem C3_full_batches (data : DataMap) (bs : Nat) (shuffle : Bool)
    (bp : Nat → List Nat) (gp : List Nat) (hbs : 0 < bs) :
    (∀ b ∈ buildPlan data bs shuffle false bp gp, b.length = bs) ∧
    (∀ b : List Sample, b.length < bs → b ∉ buildPlan data bs shuffle false bp gp) := by
  have key : ∀ b ∈ buildPlan data bs shuffle false bp gp, b.length = bs := by
    intro b hb
    obtain ⟨k, bucket, p, _, hpb⟩ := mem_buildPlan hb
    exact planBucket_mem_length hpb
  exact ⟨key, fun b hlt hmem => absurd (key b hmem) (by omega)⟩

/-- C3, witness at a three-sample bucket with batch size 2 (the remainder
slice of length 1 is dropped). -/
theorem C3_witness :
    (∀ b ∈ buildPlan dataC3 2 false false (fun _ => []) [], b.length = 2) ∧
    (∀ b : List Sample, b.length < 2 →
      b ∉ buildPlan dataC3 2 false false (fun _ => []) []) :=
  C3_full_batches dataC3 2 false (fun _ => []) [] (by decide)

/-- C4, confirmed.  For any configuration, every batch of the plan built at
construction — and of every plan rebuilt after any `update` — draws all its
samples from a single bucket whose key they all share exactly, and that key
respects the dimension cap `maxd` in force at index-build time. -/
theorem C4_single_bucket (eqs : List String) (images : List ImageFile)
    (sh : Bool) (bs : Nat) (maxd : Int × Int) (pad keep test : Bool)
    (bp : Nat → List Nat) (gp : List Nat) (d : Dataset)
    (h : initDataset eqs images sh bs maxd pad keep test bp gp = Except.ok d) :
    (∀ b ∈ d.pairs, ∃ k bucket, (k, bucket) ∈ d.data ∧
        k.1 ≤ maxd.1 ∧ k.2 ≤ maxd.2 ∧
        ∀ s ∈ b, s ∈ bucket ∧ (s.2.width, s.2.height) = k) ∧
    ∀ (kw : UpdateKwargs) (bp' : Nat → List Nat) (gp' : List Nat),
      ∀ b ∈ (update d kw bp' gp').pairs,
        ∃ k bucket, (k, bucket) ∈ (update d kw bp' gp').data ∧
          k.1 ≤ maxd.1 ∧ k.2 ≤ maxd.2 ∧
          ∀ s ∈ b, s ∈ bucket ∧ (s.2.width, s.2.height) = k := by
  unfold initDataset at h
  cases hbi : buildIndex eqs images maxd with
  | error e => rw [hbi] at h; cases h
  | ok data0 =>
      rw [hbi] at h
      injection h with h
      subst h
      have hinv : IndexInv maxd data0 :=
        buildIndexAux_IndexInv (fun kv hkv => absurd hkv (List.not_mem_nil kv)) hbi
      constructor
      · intro b hb
        exact plan_batches_good hinv b hb
      · intro kw bp' gp' b hb
        have hinv2 : IndexInv maxd
            (applyMaxDims (applyOptions
              (datasetIter (get_size
                { data := data0, batchsize := bs, shuffle := sh,
                  keep_smaller_batches := keep, pad := pad, test := test,
                  max_dimensions := maxd, pairs := [], size := 0, i := 0 })
                bp gp) kw) kw.max_dimensions).data := by
          cases hmx : kw.max_dimensions with
          | none => exact hinv
          | some nd => exact IndexInv_filter hinv
        exact plan_batches_good hinv2 b hb

/-- C4, witness at one 5x5 image, one target and a cap of `(10, 10)`. -/
theorem C4_witness :
    (∀ b ∈ dC4w.pairs, ∃ k bucket, (k, bucket) ∈ dC4w.data ∧
        k.1 ≤ 10 ∧ k.2 ≤ 10 ∧
        ∀ s ∈ b, s ∈ bucket ∧ (s.2.width, s.2.height) = k) ∧
    ∀ (kw : UpdateKwargs) (bp' : Nat → List Nat) (gp' : List Nat),
      ∀ b ∈ (update dC4w kw bp' gp').pairs,
        ∃ k bucket, (k, bucket) ∈ (update dC4w kw bp' gp').data ∧
          k.1 ≤ 10 ∧ k.2 ≤ 10 ∧
          ∀ s ∈ b, s ∈ bucket ∧ (s.2.width, s.2.height) = k :=
  C4_single_bucket ["a"] [imC4] false 1 (10, 10) false false false
    (fun _ => []) [] dC4w rfl

/-- C5, counterexample.  A bucket keyed `(0, 5)` fits the new bounds
`(10, 10)` in the sense of the claim (both components at most the bounds),
yet `update` drops it, so the resulting mapping is not the subset of buckets
fitting the new bounds. -/
theorem C5_counterexample :
    (update dC5 kwC5 (fun _ => []) []).data ≠ specFitFilter dC5.data (10, 10) := by
  decide

/-- C5, amended.  When `update` changes `max_dimensions`, the resulting
bucket mapping is exactly the previous buckets whose keys fit the new bounds
AND have strictly positive width and height (in particular a subset of the
previous buckets — monotonic shrink), and the call recomputes the size,
rebuilds the plan from the new configuration and resets the cursor to 0. -/
theorem C5_amended (d : Dataset) (kw : UpdateKwargs) (nd : Int × Int)
    (bp : Nat → List Nat) (gp : List Nat) (h : kw.max_dimensions = some nd) :
    (update d kw bp gp).data = d.data.filter (fun kv => updateKeyKept nd kv.1) ∧
    (∀ kv ∈ (update d kw bp gp).data, kv ∈ d.data) ∧
    (update d kw bp gp).i = 0 ∧
    (update d kw bp gp).max_dimensions = nd ∧
    (update d kw bp gp).pairs
      = buildPlan (update d kw bp gp).data (update d kw bp gp).batchsize
          (update d kw bp gp).shuffle (update d kw bp gp).keep_smaller_batches
          bp gp ∧
    (update d kw bp gp).size = (update d kw bp gp).pairs.length := by
  unfold update applyMaxDims
  rw [h]
  refine ⟨rfl, ?_, rfl, rfl, rfl, rfl⟩
  intro kv hkv
  have hkv' : kv ∈ (applyOptions d kw).data.filter
      (fun kv => updateKeyKept nd kv.1) := hkv
  exact List.mem_of_mem_filter hkv'

/-- C5, witness: the zero-width dataset reconfigured to bounds `(10, 10)`. -/
theorem C5_witness :
    (update dC5 kwC5 (fun _ => []) []).data
        = dC5.data.filter (fun kv => updateKeyKept (10, 10) kv.1) ∧
    (∀ kv ∈ (update dC5 kwC5 (fun _ => []) []).data, kv ∈ dC5.data) ∧
    (update dC5 kwC5 (fun _ => []) []).i = 0 ∧
    (update dC5 kwC5 (fun _ => []) []).max_dimensions = (10, 10) ∧
    (update dC5 kwC5 (fun _ => []) []).pairs
      = buildPlan (update dC5 kwC5 (fun _ => []) []).data
          (update dC5 kwC5 (fun _ => []) []).batchsize
          (update dC5 kwC5 (fun _ => []) []).shuffle
          (update dC5 kwC5 (fun _ => []) []).keep_smaller_batches
          (fun _ => []) [] ∧
    (update dC5 kwC5 (fun _ => []) []).size
      = (update dC5 kwC5 (fun _ => []) []).pairs.length :=
  C5_amended dC5 kwC5 (10, 10) (fun _ => []) [] rfl

/-- C6, confirmed.  Whenever two decoded-and-transformed images of one batch
have different spatial shapes, `prepare_data` returns the absent pair
(`(None, None)`) and logs a critical diagnostic naming every image path of
the batch; being a total function, it propagates no exception. -/
theorem C6_batch_reject
    (tokenize : List String → List (List Nat) × List (List Nat))
    (pad : Bool) (maxd : Int × Int) (batch : List Sample)
    (h : ∃ a ∈ transformedShapes (batch.map Prod.snd),
        ∃ c ∈ transformedShapes (batch.map Prod.snd), a ≠ c) :
    (prepare_data tokenize pad maxd batch).1 = none ∧
    LogEvent.imagesNotWorking ((batch.map Prod.snd).map (fun im => im.path))
      ∈ (prepare_data tokenize pad maxd batch).2 := by
  obtain ⟨a, ha, c, hc, hac⟩ := h
  obtain ⟨msg, hmsg⟩ := stackImagesE_mismatch ha hc hac
  unfold prepare_data
  rw [hmsg]
  exact ⟨rfl, List.mem_append_right _ (List.mem_singleton.mpr rfl)⟩

/-- C6, witness: a batch whose two images transform to 4x4 and 9x9. -/
theorem C6_witness :
    (prepare_data tokC6 false (10, 10) [("a", imC6a), ("c", imC6b)]).1 = none ∧
    LogEvent.imagesNotWorking
        (([("a", imC6a), ("c", imC6b)].map Prod.snd).map (fun im => im.path))
      ∈ (prepare_data tokC6 false (10, 10) [("a", imC6a), ("c", imC6b)]).2 :=
  C6_batch_reject tokC6 false (10, 10) [("a", imC6a), ("c", imC6b)] (by decide)

/-- C7, confirmed.  A batch sample whose image cannot be decoded yields a
warning naming its path, is excluded from the stacked image tensor (the
stack counts exactly the decodable images, strictly fewer than the batch),
does not abort the batch (`__next__` still returns and advances the
cursor), and iteration over the following batches stays available. -/
theorem C7_decode_failure
    (tokenize : List String → List (List Nat) × List (List Nat))
    (d : Dataset) (b : List Sample) (e : String) (imf : ImageFile)
    (hi : d.i < d.size) (hb : d.pairs.get? d.i = some b)
    (hmem : (e, imf) ∈ b) (hdec : imf.decodable = false) :
    datasetNext tokenize d
      = some (prepare_data tokenize d.pad d.max_dimensions b,
          { d with i := d.i + 1 }) ∧
    LogEvent.notFound imf.path ∈ (prepare_data tokenize d.pad d.max_dimensions b).2 ∧
    (∀ t stk, (prepare_data tokenize d.pad d.max_dimensions b).1 = some (t, stk) →
      stk.1 = (transformedShapes (b.map Prod.snd)).length ∧ stk.1 < b.length) ∧
    (d.i + 1 < d.size → d.size ≤ d.pairs.length →
      (datasetNext tokenize { d with i := d.i + 1 }).isSome = true) := by
  have himgs : imf ∈ b.map Prod.snd := List.mem_map.mpr ⟨(e, imf), hmem, rfl⟩
  refine ⟨?_, ?_, ?_, ?_⟩
  · unfold datasetNext
    rw [if_neg (by omega), hb]
  · unfold prepare_data
    cases hstack : stackImagesE (transformedShapes (b.map Prod.snd)) with
    | error msg => exact List.mem_append_left _ (mem_decodeWarnings himgs hdec)
    | ok nhw => exact mem_decodeWarnings himgs hdec
  · intro t stk hsome
    unfold prepare_data at hsome
    cases hstack : stackImagesE (transformedShapes (b.map Prod.snd)) with
    | error msg => rw [hstack] at hsome; cases hsome
    | ok nhw =>
        rw [hstack] at hsome
        have hstk : stk = padImages d.pad d.max_dimensions nhw := by
          have := congrArg Prod.snd (Option.some.inj hsome)
          exact this.symm
        have hcount : stk.1 = nhw.1 := by
          rw [hstk, padImages_count]
        have hlen : stk.1 = (transformedShapes (b.map Prod.snd)).length := by
          rw [hcount, stackImagesE_ok_count hstack]
        refine ⟨hlen, ?_⟩
        rw [hlen, transformedShapes_length]
        calc ((b.map Prod.snd).filter (fun im => im.decodable)).length
            < (b.map Prod.snd).length := length_filter_lt himgs (by simp [hdec])
          _ = b.length := List.length_map _ _
  · intro h1 h2
    exact datasetNext_isSome tokenize
      (show d.i + 1 < d.size from h1)
      (show d.size ≤ d.pairs.length from h2)

/-- C7, witness: a two-batch plan whose first batch holds one undecodable
and one decodable image. -/
theorem C7_witness :
    datasetNext tokC7 dC7
      = some (prepare_data tokC7 dC7.pad dC7.max_dimensions bC7,
          { dC7 with i := dC7.i + 1 }) ∧
    LogEvent.notFound imC7bad.path
      ∈ (prepare_data tokC7 dC7.pad dC7.max_dimensions bC7).2 ∧
    (∀ t stk, (prepare_data tokC7 dC7.pad dC7.max_dimensions bC7).1 = some (t, stk) →
      stk.1 = (transformedShapes (bC7.map Prod.snd)).length ∧ stk.1 < bC7.length) ∧
    (dC7.i + 1 < dC7.size → dC7.size ≤ dC7.pairs.length →
      (datasetNext tokC7 { dC7 with i := dC7.i + 1 }).isSome = true) :=
  C7_decode_failure tokC7 dC7 bC7 "a" imC7bad (by decide) (by decide)
    (by decide) rfl

/-- C8, confirmed.  With `shuffle = false`, two consecutive `start()` calls
on the same unchanged dataset produce identical plans — whatever
permutations the random sources would have supplied on either call, the
non-shuffling planner ignores them, so per-bucket sample order and
cross-bucket batch order are both deterministic. -/
theorem C8_deterministic (d : Dataset) (bp1 bp2 : Nat → List Nat)
    (gp1 gp2 : List Nat) (hsh : d.shuffle = false) :
    (datasetIter (datasetIter d bp1 gp1) bp2 gp2).pairs
      = (datasetIter d bp1 gp1).pairs := by
  show buildPlan d.data d.batchsize d.shuffle d.keep_smaller_batches bp2 gp2
      = buildPlan d.data d.batchsize d.shuffle d.keep_smaller_batches bp1 gp1
  rw [hsh]
  show prePlan d.data d.batchsize false d.keep_smaller_batches bp2
      = prePlan d.data d.batchsize false d.keep_smaller_batches bp1
  exact prePlanAux_shuffle_false d.batchsize d.keep_smaller_batches
    bp2 bp1 d.data 0 0

/-- C8, witness: restarting a non-shuffling dataset with two different
permutation sources yields the same plan. -/
theorem C8_witness :
    (datasetIter (datasetIter dC8 (fun _ => [1, 0]) [0]) (fun _ => [0, 1]) [1]).pairs
      = (datasetIter dC8 (fun _ => [1, 0]) [0]).pairs :=
  C8_deterministic dC8 (fun _ => [1, 0]) (fun _ => [0, 1]) [0] [1] rfl

/-- C9, confirmed.  For every batch, the processed primary id row `j` is
exactly `bos :: original ++ [eos]` (begins with id 1, ends with id 2)
followed only by pad id 0, the mask row gets the value 1 prepended and
appended instead, and each field is padded with 0 precisely up to its own
longest marked row of this batch. -/
theorem C9_token_markers (ids mask : List (List Nat)) (j : Nat)
    (x m : List Nat) (hx : ids.get? j = some x) (hm : mask.get? j = some m) :
    ∃ kx km,
      (tokProcess ids mask).1.get? j
          = some ((bos_token_id :: (x ++ [eos_token_id]))
              ++ List.replicate kx pad_token_id) ∧
      (tokProcess ids mask).2.get? j
          = some ((1 :: (m ++ [1])) ++ List.replicate km pad_token_id) ∧
      (x.length + 2) + kx = maxRowLen (addMarkers bos_token_id eos_token_id ids) ∧
      (m.length + 2) + km = maxRowLen (addMarkers 1 1 mask) := by
  have hgx : (addMarkers bos_token_id eos_token_id ids).get? j
      = some (bos_token_id :: (x ++ [eos_token_id])) := by
    unfold addMarkers
    rw [List.get?_map, hx]
    rfl
  have hgm : (addMarkers 1 1 mask).get? j = some (1 :: (m ++ [1])) := by
    unfold addMarkers
    rw [List.get?_map, hm]
    rfl
  have hlx : (bos_token_id :: (x ++ [eos_token_id])).length = x.length + 2 := by
    simp
  have hlm : ((1 : Nat) :: (m ++ [1])).length = m.length + 2 := by
    simp
  have hbx : (bos_token_id :: (x ++ [eos_token_id])).length
      ≤ maxRowLen (addMarkers bos_token_id eos_token_id ids) :=
    le_maxRowLen (List.get?_mem hgx)
  have hbm : ((1 : Nat) :: (m ++ [1])).length ≤ maxRowLen (addMarkers 1 1 mask) :=
    le_maxRowLen (List.get?_mem hgm)
  refine ⟨_, _, pad_sequence_get hgx, pad_sequence_get hgm, ?_, ?_⟩
  · rw [hlx] at hbx ⊢
    omega
  · rw [hlm] at hbm ⊢
    omega

/-- C9, witness at the two-row batch `ids = [[7], [8, 9]]`,
`mask = [[1], [1, 1]]`, row 0. -/
theorem C9_witness :
    ∃ kx km,
      (tokProcess [[7], [8, 9]] [[1], [1, 1]]).1.get? 0
          = some ((bos_token_id :: ([7] ++ [eos_token_id]))
              ++ List.replicate kx pad_token_id) ∧
      (tokProcess [[7], [8, 9]] [[1], [1, 1]]).2.get? 0
          = some ((1 :: ([1] ++ [1])) ++ List.replicate km pad_token_id) ∧
      (([7] : List Nat).length + 2) + kx
          = maxRowLen (addMarkers bos_token_id eos_token_id [[7], [8, 9]]) ∧
      (([1] : List Nat).length + 2) + km = maxRowLen (addMarkers 1 1 [[1], [1, 1]]) :=
  C9_token_markers [[7], [8, 9]] [[1], [1, 1]] 0 [7] [1] rfl rfl

/-- C10, confirmed.  The reconfiguration filter keeps a bucket key iff both
components are strictly positive besides fitting the new bounds; the build
filter is laxer: a zero-width bucket `(0, 5)` survives the build under cap
`(10, 10)` yet is dropped by an `update` to those same bounds. -/
theorem C10_strict_filter :
    (∀ (nd : Int × Int) (k : Key), updateKeyKept nd k = true ↔
        (0 < k.1 ∧ k.1 ≤ nd.1 ∧ 0 < k.2 ∧ k.2 ≤ nd.2)) ∧
    buildIndex ["a"] [imC10] (10, 10) = Except.ok [((0, 5), [("a", imC10)])] ∧
    (update dC10 kwC10 (fun _ => []) []).data = [] := by
  refine ⟨?_, rfl, by decide⟩
  intro nd k
  unfold updateKeyKept
  simp [and_assoc]

end Im2Latex
